import Mathlib

/-!
Verification of the V2X-Scene-Explorer dataset adapter and indexing engine.

This file gives a shallow embedding, in Lean 4, of the pure algorithmic core of
`apps/server/datasets.py` and `apps/server/profiles.py`:

* Python floats are modelled as exact rationals, extended with `+inf`/`-inf`
  (and `nan` where the code checks for it); binary64 rounding is elided, which
  does not affect any control-flow decision verified here except the overflow
  of out-of-range literals to infinity, which is modelled explicitly.
* Python `list.sort(key=...)` / `sorted(...)` are modelled by a stable
  insertion sort over a boolean comparator.
* Python dictionaries keyed by timestamps are modelled as association lists
  with distinct keys.
* File I/O is abstracted: a loader that returns parsed file content (or `none`
  when the file does not exist) replaces `Path.exists` / `open`.

Each claim theorem is stated over these embedded definitions.
-/

namespace V2X

/-! ## Stable sort (model of Python `sorted` / `list.sort`) -/

/-- Insert `a` into `l` before the first element `b` with `le a b`.
Together with `pySort` this is the standard stable insertion sort, which
agrees with Python's stable `sorted` for a total preorder comparator. -/
def pyInsert (le : α → α → Bool) (a : α) : List α → List α
  | [] => [a]
  | b :: l => if le a b then a :: b :: l else b :: pyInsert le a l

/-- Stable sort by the boolean comparator `le`. -/
def pySort (le : α → α → Bool) : List α → List α
  | [] => []
  | a :: l => pyInsert le a (pySort le l)

theorem pyInsert_perm (le : α → α → Bool) (a : α) (l : List α) :
    List.Perm (pyInsert le a l) (a :: l) := by
  induction l with
  | nil => simp [pyInsert]
  | cons b l ih =>
      by_cases h : le a b
      · simp [pyInsert, h]
      · simp only [pyInsert, h, Bool.false_eq_true, if_false]
        exact (ih.cons b).trans (List.Perm.swap a b l)

theorem pySort_perm (le : α → α → Bool) (l : List α) : List.Perm (pySort le l) l := by
  induction l with
  | nil => simp [pySort]
  | cons a l ih => exact (pyInsert_perm le a (pySort le l)).trans (ih.cons a)

theorem mem_pyInsert {le : α → α → Bool} {a x : α} {l : List α} :
    x ∈ pyInsert le a l ↔ x = a ∨ x ∈ l := by
  have h := (pyInsert_perm le a l).mem_iff (a := x)
  simpa using h

theorem pairwise_pyInsert
    {le : α → α → Bool}
    (htrans : ∀ a b c, le a b = true → le b c = true → le a c = true)
    (htot : ∀ a b, le a b = false → le b a = true)
    (a : α) (l : List α) (h : l.Pairwise (fun x y => le x y = true)) :
    (pyInsert le a l).Pairwise (fun x y => le x y = true) := by
  induction l with
  | nil => simp [pyInsert]
  | cons b l ih =>
      rcases h with _ | ⟨hb, hl⟩
      by_cases hab : le a b
      · simp only [pyInsert, hab, if_true]
        refine List.Pairwise.cons ?_ (List.Pairwise.cons hb hl)
        intro x hx
        rcases List.mem_cons.mp hx with rfl | hx
        · exact hab
        · exact htrans a b x hab (hb x hx)
      · simp only [pyInsert, hab, Bool.false_eq_true, if_false]
        refine List.Pairwise.cons ?_ (ih hl)
        intro x hx
        rcases mem_pyInsert.mp hx with hxa | hx
        · rw [hxa]
          exact htot a b (by simpa using hab)
        · exact hb x hx

theorem pairwise_pySort
    {le : α → α → Bool}
    (htrans : ∀ a b c, le a b = true → le b c = true → le a c = true)
    (htot : ∀ a b, le a b = false → le b a = true)
    (l : List α) :
    (pySort le l).Pairwise (fun x y => le x y = true) := by
  induction l with
  | nil => simp [pySort]
  | cons a l ih => exact pairwise_pyInsert htrans htot a (pySort le l) ih

end V2X

namespace V2X

/-! ## Python floats and bounding boxes (`datasets.py`: `bbox_*`) -/

/-- A Python float: an exact rational, one of the two infinities, or NaN.
Binary64 rounding of in-range values is elided (see the module docstring). -/
inductive Flt where
  | ninf : Flt
  | val : ℚ → Flt
  | pinf : Flt
  | nan : Flt
deriving DecidableEq

/-- Strict IEEE `<` on Python floats; every comparison with NaN is false. -/
def Flt.blt : Flt → Flt → Bool
  | .nan, _ => false
  | _, .nan => false
  | .ninf, .ninf => false
  | .ninf, _ => true
  | .val _, .ninf => false
  | .val q, .val r => decide (q < r)
  | .val _, .pinf => true
  | .pinf, _ => false

/-- The four-float min/max accumulator of `datasets.py` (a dict
`{min_x, min_y, max_x, max_y}` in the source). -/
structure FBbox where
  min_x : Flt
  min_y : Flt
  max_x : Flt
  max_y : Flt
deriving DecidableEq

/-- Embeds `bbox_init`: the invalid box `(+inf, +inf, -inf, -inf)`. -/
def bbox_init : FBbox :=
  { min_x := .pinf, min_y := .pinf, max_x := .ninf, max_y := .ninf }

/-- Embeds `bbox_update(b, x, y)` (returning the updated box instead of
mutating it): compare-and-replace each of the four accumulator fields. -/
def bbox_update (b : FBbox) (x y : Flt) : FBbox :=
  { min_x := if Flt.blt x b.min_x then x else b.min_x
    min_y := if Flt.blt y b.min_y then y else b.min_y
    max_x := if Flt.blt b.max_x x then x else b.max_x
    max_y := if Flt.blt b.max_y y then y else b.max_y }

/-- Embeds `bbox_is_valid`: `min_x != inf and max_x != -inf` (the source
checks only the x fields). -/
def bbox_is_valid (b : FBbox) : Bool :=
  decide (b.min_x ≠ Flt.pinf) && decide (b.max_x ≠ Flt.ninf)

/-- Embeds `bbox_update_from_bbox(dst, src)` (returning the new `dst`):
skip invalid sources, otherwise fold both source corners into `dst`. -/
def bbox_update_from_bbox (dst src : FBbox) : FBbox :=
  if bbox_is_valid src then
    bbox_update (bbox_update dst src.min_x src.min_y) src.max_x src.max_y
  else dst

/-- A well-formed box: all four coordinates finite and `min ≤ max` on each
axis.  Every box reachable from `bbox_init` via `bbox_update` with finite
points satisfies this (or is still `bbox_init`). -/
def FBbox.wfb : FBbox → Bool
  | ⟨.val a, .val b, .val c, .val d⟩ => decide (a ≤ c) && decide (b ≤ d)
  | _ => false

/-- Finite boxes with rational coordinates, as used for parsed lane bboxes
and clip extents (always built from finite `safe_float` values). -/
structure QBbox where
  min_x : ℚ
  min_y : ℚ
  max_x : ℚ
  max_y : ℚ
deriving DecidableEq

/-- Embeds `bbox_intersects(a, b)` on finite boxes. -/
def bbox_intersects (a b : QBbox) : Bool :=
  !(decide (a.max_x < b.min_x) || decide (a.min_x > b.max_x) ||
    decide (a.max_y < b.min_y) || decide (a.min_y > b.max_y))

end V2X

namespace V2X

/-! ## `safe_float` (`datasets.py` lines 25-42) and Python numeric parsing -/

/-- Decimal value of a run of ASCII digits. -/
def digitsVal (cs : List Char) : Nat :=
  cs.foldl (fun n c => n * 10 + (c.toNat - 48)) 0

/-- Python `str.strip()` (and the whitespace stripping of `int(s)` /
`float(s)`): drop leading and trailing whitespace.  Unicode whitespace
beyond ASCII is not modelled. -/
def pyStrip (s : String) : String :=
  ⟨((s.data.dropWhile Char.isWhitespace).reverse.dropWhile Char.isWhitespace).reverse⟩

/-- Largest finite binary64 value, `(2^53 - 1) * 2^971`.  Decimal literals
beyond this magnitude overflow to an infinity in `float(...)`. -/
def FLOAT_MAX : ℚ := (2 ^ 53 - 1) * 2 ^ 971

/-- Parses an unsigned decimal float literal (`digits [. digits] [e[+-]digits]`,
already lowercased) to its exact rational value.  Models the numeric branch of
CPython `float(str)`; digit-group underscores and non-ASCII digits are not
modelled. -/
def parseUnsignedFloat (cs : List Char) : Option ℚ :=
  let ip := cs.takeWhile Char.isDigit
  let r1 := cs.dropWhile Char.isDigit
  let hasDot := r1.head? = some '.'
  let fp := if hasDot then r1.tail.takeWhile Char.isDigit else []
  let r2 := if hasDot then r1.tail.dropWhile Char.isDigit else r1
  if ip.isEmpty && fp.isEmpty then none
  else
    let mant : ℚ := (digitsVal (ip ++ fp) : ℚ) / (10 : ℚ) ^ fp.length
    if r2.isEmpty then some mant
    else if r2.head? = some 'e' then
      let rest := r2.tail
      let sgn : Int := if rest.head? = some '-' then -1 else 1
      let rest2 := if rest.head? = some '-' ∨ rest.head? = some '+' then rest.tail else rest
      let ed := rest2.takeWhile Char.isDigit
      if ed.isEmpty || !(rest2.dropWhile Char.isDigit).isEmpty then none
      else some (mant * (10 : ℚ) ^ (sgn * (digitsVal ed : Int)))
    else none

/-- Models CPython `float(s)` on an already-stripped string: case-insensitive
`inf`/`infinity`/`nan` with optional sign, or a decimal literal (overflowing
to an infinity beyond the binary64 range); `none` models `ValueError`. -/
def pyFloatOfString (s : String) : Option Flt :=
  let cs0 := s.toList.map Char.toLower
  let sgn : Int := if cs0.head? = some '-' then -1 else 1
  let cs := if cs0.head? = some '-' ∨ cs0.head? = some '+' then cs0.tail else cs0
  if cs = "inf".toList ∨ cs = "infinity".toList then
    some (if sgn = 1 then .pinf else .ninf)
  else if cs = "nan".toList then some .nan
  else
    match parseUnsignedFloat cs with
    | none => none
    | some q =>
        if q > FLOAT_MAX then some (if sgn = 1 then .pinf else .ninf)
        else some (.val (sgn * q))

/-- The argument domain of `safe_float(x: Any)`: `None`, an object whose
`str()` yields a given string, or an object whose `str()` raises. -/
inductive PyAny where
  | pynone : PyAny
  | pystr : String → PyAny
  | pystrfail : PyAny

/-- Embeds `safe_float`: `None` for `None`, unstringable objects, empty
stripped strings, unparseable strings, NaN and the infinities; otherwise the
finite parsed value. -/
def safe_float (x : PyAny) : Option Flt :=
  match x with
  | .pynone => none
  | .pystrfail => none
  | .pystr s0 =>
      let s := pyStrip s0
      if s = "" then none
      else
        match pyFloatOfString s with
        | none => none
        | some v =>
            if v = .nan then none
            else if v = .pinf || v = .ninf then none
            else some v

/-- Models CPython `int(s)` for base 10: optional surrounding whitespace,
optional sign, then a nonempty ASCII digit run; `none` models `ValueError`. -/
def pyIntOfString (s : String) : Option Int :=
  let cs0 := (pyStrip s).toList
  let sgn : Int := if cs0.head? = some '-' then -1 else 1
  let cs := if cs0.head? = some '-' ∨ cs0.head? = some '+' then cs0.tail else cs0
  if !cs.isEmpty && cs.all Char.isDigit then
    some (sgn * (digitsVal cs : Int))
  else none

end V2X

namespace V2X

/-! ## Gap-aware time windows (`CpmObjectsAdapter`) -/

/-- Embeds the `window_ms` computation of `CpmObjectsAdapter.__init__`:
`max(1, window_s) * 1000`. -/
def cpm_window_ms (window_s : Int) : Int := max 1 window_s * 1000

/-- Embeds the `gap_ms` computation of `CpmObjectsAdapter.__init__`:
`max(0, gap_s) * 1000`. -/
def cpm_gap_ms (gap_s : Int) : Int := max 0 gap_s * 1000

/-- Embeds `CpmObjectsAdapter._bucket_ts_ms`: floor the timestamp to a
multiple of the bin width `b` (Python `//` is floor division). -/
def _bucket_ts_ms (b ts_ms : Int) : Int :=
  if b ≤ 1 then ts_ms else (Int.fdiv ts_ms b) * b

/-- The single forward pass of `CpmObjectsAdapter._index_one_csv` over the
sorted bucketed timestamps of one sensor, carrying the current window's first
timestamp `f`, the previous timestamp `prev`, and the current window's member
timestamps `cur` (the source keeps only `cur_first`/`cur_last`/counts; the
member list determines all of those).  A new window starts when
`gap > gap_ms or dur >= window_ms`. -/
def cpmWindowsAux (gapMs winMs : Int) : Int → Int → List Int → List Int → List (List Int)
  | _, _, cur, [] => [cur]
  | f, prev, cur, t :: rest =>
      if t - prev > gapMs ∨ winMs ≤ t - f then
        cur :: cpmWindowsAux gapMs winMs t t [t] rest
      else
        cpmWindowsAux gapMs winMs f t (cur ++ [t]) rest

/-- Embeds the windowing loop of `CpmObjectsAdapter._index_one_csv` on the
sorted list of distinct bucketed timestamps of one sensor. -/
def cpmWindows (gapMs winMs : Int) : List Int → List (List Int)
  | [] => []
  | t :: rest => cpmWindowsAux gapMs winMs t t [t] rest

/-- Window-internal invariant: for each adjacent pair `(prev, t)` of a window
with first timestamp `f`, the split trigger `gap > gap_ms or dur >= window_ms`
is false. -/
def windowTailOk (gapMs winMs f : Int) : Int → List Int → Prop
  | _, [] => True
  | prev, t :: r => ¬(t - prev > gapMs ∨ winMs ≤ t - f) ∧ windowTailOk gapMs winMs f t r

/-- A produced window is nonempty and internally trigger-free. -/
def windowOk (gapMs winMs : Int) : List Int → Prop
  | [] => False
  | f :: r => windowTailOk gapMs winMs f f r

/-- Between adjacent windows the split trigger fires: the first timestamp of
the next window has a gap `> gap_ms` from the last timestamp of the previous
window, or is `≥ window_ms` past the previous window's first timestamp. -/
def boundariesOk (gapMs winMs : Int) : List (List Int) → Prop
  | w₁ :: w₂ :: ws =>
      (∀ f₁ l₁ t, w₁.head? = some f₁ → w₁.getLast? = some l₁ → w₂.head? = some t →
        (t - l₁ > gapMs ∨ winMs ≤ t - f₁)) ∧
      boundariesOk gapMs winMs (w₂ :: ws)
  | _ => True

/-! ## Fixed-duration recording windows (`InDAdapter._build_index`) -/

/-- Python `round` on a rational (banker's rounding: ties to even). -/
def pyRound (q : ℚ) : Int :=
  let f := ⌊q⌋
  let r := q - f
  if r < 1 / 2 then f
  else if 1 / 2 < r then f + 1
  else if f % 2 = 0 then f else f + 1

/-- Embeds `window_frames = max(1, int(round(window_s * frame_rate)))` from
`InDAdapter._build_index`. -/
def ind_window_frames (window_s frame_rate : ℚ) : Nat :=
  (max 1 (pyRound (window_s * frame_rate))).toNat

/-- The `while start <= max_frame` loop of `InDAdapter._build_index` for one
recording, emitting `(frame_start, frame_end)` pairs.  The loop always
advances `start` by at least one frame, so `maxFrame + 1` iterations of fuel
suffice for any `wf ≥ 1`. -/
def indWindowsGo (wf m : Nat) : Nat → Nat → List (Nat × Nat)
  | _, 0 => []
  | start, fuel + 1 =>
      if start ≤ m then
        (start, min m (start + wf - 1)) :: indWindowsGo wf m (min m (start + wf - 1) + 1) fuel
      else []

/-- Embeds the per-recording window slicing of `InDAdapter._build_index`:
frame range `[0, maxFrame]` cut into windows of `windowFrames` frames. -/
def indWindows (windowFrames maxFrame : Nat) : List (Nat × Nat) :=
  indWindowsGo windowFrames maxFrame 0 (maxFrame + 1)

/-- Modelled from the spec sentence for C2: the frame range `[0, maxFrame]`
partitioned into consecutive windows of `wf` frames, the last possibly
shorter — window `i` spans `[i*wf, min maxFrame ((i+1)*wf - 1)]`. -/
def indWindowsSpec (wf m : Nat) : List (Nat × Nat) :=
  (List.range (m / wf + 1)).map (fun i => (i * wf, min m (i * wf + wf - 1)))

/-! ## Polyline downsampling (`InDAdapter._downsample_polyline`) -/

/-- Python `range(0, n, s)` for a positive step `s`; fuel-based model of the
arithmetic progression `0, s, 2s, ...` below `n`. -/
def pyRangeGo (n s : Nat) : Nat → Nat → List Nat
  | _, 0 => []
  | cur, fuel + 1 => if cur < n then cur :: pyRangeGo n s (cur + s) fuel else []

/-- Python `range(0, n, s)` (`s ≥ 1`). -/
def pyRange (n s : Nat) : List Nat := pyRangeGo n s 0 (n + 1)

/-- Embeds `InDAdapter._downsample_polyline`: identity on short polylines,
else every `s`-th point plus the forced final point, with the degenerate
single-point guard of the source.  The function never inspects point
values, so it is stated for an arbitrary point type. -/
def downsampleIdxs (n s : Nat) : List Nat :=
  let lastIdx := n - 1
  let idxs0 := pyRange n s
  if idxs0.getLast? ≠ some lastIdx then idxs0 ++ [lastIdx] else idxs0

def _downsample_polyline (points : List α) (step : Int) : List α :=
  let s := max 1 step
  if s ≤ 1 ∨ (points.length : Int) ≤ max 12 (s * 2) then points
  else
    let idxs := downsampleIdxs points.length s.toNat
    let out := idxs.filterMap (fun i => points[i]?)
    if out.length < 2 ∧ 2 ≤ points.length then
      points.take 1 ++ points.drop (points.length - 1)
    else out

/-! ## Map clip truncation (`V2XTrajAdapter._clip_map_features`) -/

/-- A parsed lane as far as clipping is concerned: its bounding box plus an
opaque identifier standing for the remaining fields (centerline, type, ...),
which clipping copies through unchanged. -/
structure Lane where
  id : Nat
  bbox : QBbox
deriving DecidableEq

/-- Squared distance from the bbox center of a lane to the focus point,
as computed by the local `dist2` of `_clip_map_features`. -/
def laneDist2 (cx cy : ℚ) (l : Lane) : ℚ :=
  let mx := (l.bbox.min_x + l.bbox.max_x) / 2
  let my := (l.bbox.min_y + l.bbox.max_y) / 2
  (mx - cx) * (mx - cx) + (my - cy) * (my - cy)

/-- The focus point used for distance ranking: `focus_xy` when given, else
the clip extent's center (the `if focus_xy / else` of `_clip_map_features`). -/
def clipFocus (extent : QBbox) (focus_xy : Option (ℚ × ℚ)) : ℚ × ℚ :=
  match focus_xy with
  | some p => p
  | none => ((extent.min_x + extent.max_x) / 2, (extent.min_y + extent.max_y) / 2)

/-- Embeds the lane part of `V2XTrajAdapter._clip_map_features`: keep the
lanes whose bbox intersects the extent; if more than `max_lanes` remain
(and `max_lanes` is truthy), stably sort by squared distance to the focus
point (extent center when no focus is given) and keep the first `max_lanes`,
reporting `lanes_truncated = true`. -/
def _clip_map_features (lanes : List Lane) (extent : QBbox) (max_lanes : Nat)
    (focus_xy : Option (ℚ × ℚ)) : List Lane × Bool :=
  let kept := lanes.filter (fun l => bbox_intersects l.bbox extent)
  if max_lanes ≠ 0 ∧ max_lanes < kept.length then
    let c := clipFocus extent focus_xy
    let ranked := pySort (fun a b => decide (laneDist2 c.1 c.2 a ≤ laneDist2 c.1 c.2 b)) kept
    (ranked.take max_lanes, true)
  else (kept, false)

/-! ## Scene sort key (`V2XTrajAdapter._scene_sort_key`) -/

/-- Embeds `V2XTrajAdapter._scene_sort_key`: `(int(scene_id), scene_id)` when
the id parses as an integer, else the sentinel pair `(10**18, scene_id)`. -/
def _scene_sort_key (scene_id : String) : Int × String :=
  match pyIntOfString scene_id with
  | some n => (n, scene_id)
  | none => ((10 : Int) ^ 18, scene_id)

/-- Python `<` on `(int, str)` key tuples: lexicographic, strings compared by
code point. -/
def keyLt (a b : Int × String) : Bool :=
  decide (a.1 < b.1) || (decide (a.1 = b.1) && decide (a.2 < b.2))

/-- Embeds `ids.sort(key=self._scene_sort_key)` from `_build_scene_indices`:
stable ascending sort by the key tuples. -/
def sortSceneIds (ids : List String) : List String :=
  pySort (fun a b => !(keyLt (_scene_sort_key b) (_scene_sort_key a))) ids

/-! ## Detector decision tier (`profiles.py` `detect_profile`, no type hint) -/

/-- Embeds the ranking and decision-tier logic of `detect_profile` when no
dataset-type hint is given: sort the candidate scores descending (the adapter
always scores exactly five candidates, so the list is nonempty), take the top
score and the margin to the runner-up (`0.0` when there is no runner-up), and
pick `auto`/`confirm`/`manual` with thresholds 75/12 and 50. -/
def detect_profile_decision (scores : List ℚ) : String :=
  let ranked := pySort (fun a b => decide (b ≤ a)) scores
  let score := ranked.head?.getD 0
  let second := (ranked.drop 1).head?.getD 0
  if 75 ≤ score ∧ 12 ≤ score - second then "auto"
  else if 50 ≤ score then "confirm"
  else "manual"

end V2X

namespace V2X

/-! ## Scene bundler (`V2XTrajAdapter.load_scene_bundle` and the guarded
entry points of `CpmObjectsAdapter` / `InDAdapter`) -/

/-- The four modalities of the V2X-Traj bundler. -/
inductive Modality where
  | ego | infra | vehicle | traffic_light
deriving DecidableEq

/-- Result of `_load_csv_cached` for one modality file: the
`timestamp tick → records` dictionary (an association list with distinct
keys), the accumulated extent, and the `{city, intersect_id}` metadata.
Record contents are opaque to the bundler (type parameter `α`). -/
structure TrajCsv (α : Type) where
  by_ts : List (Int × List α)
  extent : FBbox
  city : Option String
  intersect_id : Option String

/-- What `_load_traj_csv` / `_load_tl_csv` return for a missing file:
an empty dictionary, the invalid extent, and empty metadata. -/
def emptyTraj : TrajCsv α := ⟨[], bbox_init, none, none⟩

/-- Python `d.get(k, [])` on a timestamp dictionary. -/
def tsGet (m : List (Int × List α)) (k : Int) : List α :=
  ((m.find? (fun p => p.1 == k)).map Prod.snd).getD []

/-- Python `d.get(k)` on a string-keyed dictionary. -/
def dictFind (m : List (String × β)) (k : String) : Option β :=
  (m.find? (fun p => p.1 == k)).map Prod.snd

/-- Embeds `ts_100ms_to_float`: tick to seconds. -/
def ts_100ms_to_float (k : Int) : ℚ := (k : ℚ) / 10

/-- Embeds lines 993-995 of `datasets.py`:
`sorted(set(ego) | set(infra) | set(veh) | set(tl))`. -/
def v2xUnionTicks (e i v t : List Int) : List Int :=
  pySort (fun a b => decide (a ≤ b)) ((e ++ i ++ v ++ t).dedup)

/-- One emitted frame: per-modality record sequences at one tick. -/
structure SceneFrame (α : Type) where
  ego : List α
  infra : List α
  vehicle : List α
  traffic_light : List α

/-- Embeds the local `stats_for` of `load_scene_bundle`. -/
structure ModStats where
  rows : Nat
  unique_ts : Nat
  min_ts : Option ℚ
  max_ts : Option ℚ

/-- Embeds `stats_for(by_ts)`. -/
def stats_for (by_ts : List (Int × List α)) : ModStats :=
  if by_ts.isEmpty then ⟨0, 0, none, none⟩
  else
    let keys := pySort (fun a b => decide (a ≤ b)) (by_ts.map Prod.fst)
    ⟨(by_ts.map (fun p => p.2.length)).sum, keys.length,
      keys.head?.map ts_100ms_to_float, keys.getLast?.map ts_100ms_to_float⟩

/-- Embeds `parse_intersect_to_map_id`: first `#` followed by a nonempty
digit run (the regex `#(\d+)` search), `None` on a falsy id. -/
def hashNumScan : List Char → Option Nat
  | [] => none
  | '#' :: rest =>
      let ds := rest.takeWhile Char.isDigit
      if ds.isEmpty then hashNumScan rest else some (digitsVal ds)
  | _ :: rest => hashNumScan rest

/-- Embeds `parse_intersect_to_map_id(intersect_id)`. -/
def parse_intersect_to_map_id (s : String) : Option Nat :=
  if s = "" then none else hashNumScan s.toList

/-- Python `round(q, 3)` (banker's rounding at the third decimal). -/
def pyRound3 (q : ℚ) : ℚ := (pyRound (q * 1000) : ℚ) / 1000

/-- The traffic-light timestamp-offset warnings of `load_scene_bundle`
(lines 1040-1053): compare the reference modality's min/max timestamps with
the traffic-light modality's; an absolute offset `≥ 0.05` s warns.  The
Python decimal formatting of the offset is rendered as the rational's
`toString`. -/
def tlOffsetWarnings (ref : Option (String × ModStats)) (tl : ModStats) : List String :=
  match ref with
  | none => []
  | some (name, a) =>
      match a.min_ts, a.max_ts, tl.min_ts, tl.max_ts with
      | some amin, some amax, some bmin, some bmax =>
          let dmin := pyRound3 (bmin - amin)
          let dmax := pyRound3 (bmax - amax)
          (if 1 / 20 ≤ |dmin| then
            ["traffic_light_min_ts_offset_vs_" ++ name ++ ":" ++ toString dmin ++ "s"]
          else []) ++
          (if 1 / 20 ≤ |dmax| then
            ["traffic_light_max_ts_offset_vs_" ++ name ++ ":" ++ toString dmax ++ "s"]
          else [])
      | _, _, _, _ => []

/-- The scene bundle emitted by `V2XTrajAdapter.load_scene_bundle`; the map
section payload is opaque (type parameter `μ`). -/
structure Bundle (α μ : Type) where
  scene_id : String
  city : Option String
  intersect_id : Option String
  map_id : Option Nat
  t0 : Option ℚ
  timestamps : List ℚ
  extent : FBbox
  frames : List (SceneFrame α)
  modality_stats : List (String × ModStats)
  mapsec : Option μ
  warnings : List String

/-- Embeds `V2XTrajAdapter.load_scene_bundle` (lines 939-1107).  File I/O is
abstracted by `fs`: `fs m = none` models a missing modality file, otherwise
the parsed CSV content.  The entire `try` block of the map section (map
parsing, clipping and the bbox-consistency checks) is abstracted by
`map_try`: `.ok (m, ws)` yields the attached map section plus the
consistency warnings appended inside the block, `.error e` models any
exception raised in it.  Note the function consults no scene index and
raises nothing: an unknown scene id simply yields missing files.
The metadata resolution (`v2xResolvedIntersect`, Python `a or b or c or d`,
preferring ego, then infra, vehicle, traffic-light) is split out so that
theorems can name the resolved intersection id. -/
def v2xResolvedIntersect (fs : Modality → Option (TrajCsv α)) : Option String :=
  let ego := (fs .ego).getD emptyTraj
  let infra := (fs .infra).getD emptyTraj
  let veh := (fs .vehicle).getD emptyTraj
  let tl := (fs .traffic_light).getD emptyTraj
  (((ego.intersect_id).or infra.intersect_id).or veh.intersect_id).or tl.intersect_id

def v2xTrajLoadSceneBundle (fs : Modality → Option (TrajCsv α)) (scene_id : String)
    (include_map : Bool) (map_try : Except String (μ × List String)) : Bundle α μ :=
  let ego := (fs .ego).getD emptyTraj
  let infra := (fs .infra).getD emptyTraj
  let veh := (fs .vehicle).getD emptyTraj
  let tl := (fs .traffic_light).getD emptyTraj
  let w0 : List String :=
    (if (fs .ego).isNone then ["ego_missing_file"] else []) ++
    (if (fs .infra).isNone then ["infra_missing_file"] else []) ++
    (if (fs .vehicle).isNone then ["vehicle_missing_file"] else [])
  let city := (((ego.city).or infra.city).or veh.city).or tl.city
  let intersect_id := v2xResolvedIntersect fs
  let uniq := ([ego.intersect_id, infra.intersect_id, veh.intersect_id, tl.intersect_id].filterMap id).dedup
  let w1 := w0 ++ (if 1 < uniq.length then ["intersect_id_mismatch_across_modalities"] else [])
  let map_id := parse_intersect_to_map_id (intersect_id.getD "")
  let extent0 := [ego.extent, infra.extent, veh.extent, tl.extent].foldl
    (fun acc b =>
      if bbox_is_valid b then
        bbox_update (bbox_update acc b.min_x b.min_y) b.max_x b.max_y
      else acc)
    bbox_init
  let extentP : FBbox × List String :=
    if bbox_is_valid extent0 then (extent0, [])
    else (⟨.val 0, .val 0, .val 1, .val 1⟩,
      ["extent_missing: could not compute extent from scene files"])
  let w2 := w1 ++ extentP.2
  let ts_sorted := v2xUnionTicks (ego.by_ts.map Prod.fst) (infra.by_ts.map Prod.fst)
    (veh.by_ts.map Prod.fst) (tl.by_ts.map Prod.fst)
  let w3 := w2 ++ (if ts_sorted.isEmpty then
    ["no_timestamps: scene appears empty across all modalities"] else [])
  let frames := ts_sorted.map (fun k =>
    SceneFrame.mk (tsGet ego.by_ts k) (tsGet infra.by_ts k) (tsGet veh.by_ts k) (tsGet tl.by_ts k))
  let timestamps := ts_sorted.map ts_100ms_to_float
  let t0 := timestamps.head?
  let stats := [("ego", stats_for ego.by_ts), ("infra", stats_for infra.by_ts),
    ("vehicle", stats_for veh.by_ts), ("traffic_light", stats_for tl.by_ts)]
  let st_tl := stats_for tl.by_ts
  let w4 := w3 ++
    (if (fs .traffic_light).isNone then ["traffic_light_missing_file"]
     else if st_tl.rows = 0 then ["traffic_light_empty"] else [])
  let ref := [("ego", stats_for ego.by_ts), ("vehicle", stats_for veh.by_ts),
    ("infra", stats_for infra.by_ts)].find? (fun p => p.2.min_ts.isSome)
  let w5 := w4 ++ tlOffsetWarnings ref st_tl
  let mapP : Option μ × List String :=
    if include_map ∧ map_id.isSome then
      match map_try with
      | .ok (m, ws) => (some m, ws)
      | .error e => (none, ["map_load_failed: " ++ e])
    else (none, [])
  { scene_id := scene_id
    city := city
    intersect_id := intersect_id
    map_id := map_id
    t0 := t0
    timestamps := timestamps
    extent := extentP.1
    frames := frames
    modality_stats := stats
    mapsec := mapP.1
    warnings := w5 ++ mapP.2 }

/-- The V2X-Traj bundler as an `Except`-typed entry point: it is total, so
the result is always `.ok` — there is no scene-index guard in the source
(`load_scene_bundle` goes straight to the per-modality file paths). -/
def V2XTraj_load_scene_bundle (fs : Modality → Option (TrajCsv α)) (scene_id : String)
    (include_map : Bool) (map_try : Except String (μ × List String)) :
    Except String (Bundle α μ) :=
  Except.ok (v2xTrajLoadSceneBundle fs scene_id include_map map_try)

/-- Embeds the entry guard of `CpmObjectsAdapter.load_scene_bundle`
(lines 4229-4233): `self._scenes.get(scene_id)` and
`raise KeyError(f"scene not found: {scene_id}")` when absent; the remainder
of the bundling body is abstracted as `body`. -/
def CpmObjects_load_scene_bundle (scenes : List (String × σ)) (body : σ → β)
    (scene_id : String) : Except String β :=
  match dictFind scenes scene_id with
  | none => Except.error ("scene not found: " ++ scene_id)
  | some ref => Except.ok (body ref)

/-- Embeds the entry guard of `InDAdapter.load_scene_bundle`
(lines 2412-2420): unknown scene id or unknown recording id raise `KeyError`;
the remainder of the bundling body is abstracted as `body`. -/
def InD_load_scene_bundle (scenes : List (String × σ)) (recordings : List (String × ρ))
    (recOf : σ → String) (body : σ → ρ → β) (scene_id : String) : Except String β :=
  match dictFind scenes scene_id with
  | none => Except.error ("scene not found: " ++ scene_id)
  | some ref =>
      match dictFind recordings (recOf ref) with
      | none => Except.error ("recording not found for scene: " ++ scene_id)
      | some rec => Except.ok (body ref rec)

end V2X

namespace V2X

/-! ## Claim theorems -/

/-- C10: for every input, `safe_float` returns either `None` or a finite
float and never raises; inputs that parse to NaN or an infinity (such as the
strings `nan`, `inf`, `-inf`), as well as `None`, empty/whitespace strings
and non-numeric strings, all yield `None` — numeric fields built from it are
finite or absent, never NaN/infinite and never a default of zero. -/
theorem safe_float_total_finite :
    (∀ x : PyAny, safe_float x = none ∨ ∃ q : ℚ, safe_float x = some (Flt.val q)) ∧
    safe_float (PyAny.pystr "nan") = none ∧
    safe_float (PyAny.pystr "inf") = none ∧
    safe_float (PyAny.pystr "-inf") = none ∧
    safe_float PyAny.pynone = none ∧
    safe_float (PyAny.pystr "") = none ∧
    safe_float (PyAny.pystr "   ") = none ∧
    safe_float (PyAny.pystr "abc") = none ∧
    safe_float (PyAny.pystr "abc") ≠ some (Flt.val 0) ∧
    safe_float (PyAny.pystr "3.5") = some (Flt.val (7 / 2)) := by
  refine ⟨?_, by decide, by decide, by decide, by decide, by decide, by decide,
    by decide, by decide, ?_⟩
  · intro x
    cases x with
    | pynone => exact Or.inl rfl
    | pystrfail => exact Or.inl rfl
    | pystr s =>
        by_cases h1 : pyStrip s = ""
        · exact Or.inl (by simp [safe_float, h1])
        · cases hp : pyFloatOfString (pyStrip s) with
          | none => exact Or.inl (by simp [safe_float, h1, hp])
          | some v =>
              cases v with
              | nan => exact Or.inl (by simp [safe_float, h1, hp])
              | pinf => exact Or.inl (by simp [safe_float, h1, hp])
              | ninf => exact Or.inl (by simp [safe_float, h1, hp])
              | val q => exact Or.inr ⟨q, by simp [safe_float, h1, hp]⟩
  · show safe_float (PyAny.pystr "3.5") = some (Flt.val (7 / 2))
    have hps : pyStrip "3.5" = "3.5" := by decide
    have t1 : List.takeWhile Char.isDigit ['3', '.', '5'] = ['3'] := by decide
    have t2 : List.dropWhile Char.isDigit ['3', '.', '5'] = ['.', '5'] := by decide
    have t3 : List.takeWhile Char.isDigit ['5'] = ['5'] := by decide
    have t4 : List.dropWhile Char.isDigit ['5'] = ([] : List Char) := by decide
    have f1 : digitsVal ['3', '5'] = 35 := by decide
    have hp : pyFloatOfString "3.5" = some (Flt.val (7 / 2)) := by
      simp only [pyFloatOfString]
      rw [show ("3.5".toList.map Char.toLower) = ['3', '.', '5'] from by decide]
      simp +decide only [parseUnsignedFloat, List.head?_cons, t1, t2, t3, t4,
        List.tail_cons, List.cons_append, List.nil_append, f1, if_true, if_false,
        List.isEmpty_cons, List.isEmpty_nil, List.length_cons, List.length_nil]
      norm_num [FLOAT_MAX]
    simp +decide [safe_float, hps, hp]

end V2X

namespace V2X

/-- C8: without a dataset-type hint, `detect_profile` ranks the candidate
scores and the decision mode is `auto` exactly when the top score is at
least 75 and its margin over the runner-up is at least 12; otherwise
`confirm` exactly when the top score is at least 50, and `manual`
otherwise.  `top` and `second` are characterized as the two largest scores
(every score is `≤ top`, all remaining scores are `≤ second`). -/
theorem detect_profile_decision_tiers (scores : List ℚ) (h2 : 2 ≤ scores.length) :
    ∃ top second rest,
      List.Perm scores (top :: second :: rest) ∧
      (∀ x ∈ scores, x ≤ top) ∧ second ≤ top ∧ (∀ x ∈ rest, x ≤ second) ∧
      (detect_profile_decision scores = "auto" ↔ 75 ≤ top ∧ 12 ≤ top - second) ∧
      (detect_profile_decision scores = "confirm" ↔
        ¬(75 ≤ top ∧ 12 ≤ top - second) ∧ 50 ≤ top) ∧
      (detect_profile_decision scores = "manual" ↔
        ¬(75 ≤ top ∧ 12 ≤ top - second) ∧ ¬(50 ≤ top)) := by
  have htrans : ∀ a b c : ℚ, (fun a b : ℚ => decide (b ≤ a)) a b = true →
      (fun a b : ℚ => decide (b ≤ a)) b c = true →
      (fun a b : ℚ => decide (b ≤ a)) a c = true := by
    intro a b c hab hbc
    simp only [decide_eq_true_eq] at hab hbc ⊢
    exact le_trans hbc hab
  have htot : ∀ a b : ℚ, (fun a b : ℚ => decide (b ≤ a)) a b = false →
      (fun a b : ℚ => decide (b ≤ a)) b a = true := by
    intro a b hab
    simp only [decide_eq_false_iff_not] at hab
    simp only [decide_eq_true_eq]
    exact le_of_not_le hab
  have hperm := pySort_perm (fun a b : ℚ => decide (b ≤ a)) scores
  have hpw := pairwise_pySort htrans htot scores
  have hlen : 2 ≤ (pySort (fun a b : ℚ => decide (b ≤ a)) scores).length := by
    rw [hperm.length_eq]
    exact h2
  obtain ⟨a, t, ht⟩ : ∃ a t, pySort (fun a b : ℚ => decide (b ≤ a)) scores = a :: t := by
    cases hr : pySort (fun a b : ℚ => decide (b ≤ a)) scores with
    | nil => rw [hr] at hlen; simp at hlen
    | cons a t => exact ⟨a, t, rfl⟩
  obtain ⟨b, rest, hrest⟩ : ∃ b rest, t = b :: rest := by
    cases t with
    | nil => rw [ht] at hlen; simp at hlen
    | cons b rest => exact ⟨b, rest, rfl⟩
  subst hrest
  rw [ht] at hperm hpw
  rcases hpw with _ | ⟨ha, hpw2⟩
  rcases hpw2 with _ | ⟨hb, _⟩
  refine ⟨a, b, rest, hperm.symm, ?_, ?_, ?_, ?_, ?_, ?_⟩
  · intro x hx
    rcases List.mem_cons.mp (hperm.symm.subset hx) with rfl | hx2
    · exact le_refl x
    · simpa using ha x hx2
  · simpa using ha b (List.mem_cons_self b rest)
  · intro x hx
    simpa using hb x hx
  · simp only [detect_profile_decision, ht, List.head?_cons, List.drop_succ_cons,
      List.drop_zero, Option.getD_some]
    by_cases hc1 : 75 ≤ a ∧ 12 ≤ a - b
    · simp [hc1]
    · by_cases hc2 : 50 ≤ a <;> simp [hc1, hc2]
  · simp only [detect_profile_decision, ht, List.head?_cons, List.drop_succ_cons,
      List.drop_zero, Option.getD_some]
    by_cases hc1 : 75 ≤ a ∧ 12 ≤ a - b
    · simp [hc1]
    · by_cases hc2 : 50 ≤ a <;> simp [hc1, hc2]
  · simp only [detect_profile_decision, ht, List.head?_cons, List.drop_succ_cons,
      List.drop_zero, Option.getD_some]
    by_cases hc1 : 75 ≤ a ∧ 12 ≤ a - b
    · simp [hc1]
    · by_cases hc2 : 50 ≤ a <;> simp [hc1, hc2]

/-- Witness for the detector decision-tier theorem at the concrete score
list `[80, 60]`. -/
theorem detect_profile_decision_tiers_witness :
    2 ≤ ([80, 60] : List ℚ).length ∧
    (∃ top second rest,
      List.Perm ([80, 60] : List ℚ) (top :: second :: rest) ∧
      (∀ x ∈ ([80, 60] : List ℚ), x ≤ top) ∧ second ≤ top ∧ (∀ x ∈ rest, x ≤ second) ∧
      (detect_profile_decision [80, 60] = "auto" ↔ 75 ≤ top ∧ 12 ≤ top - second) ∧
      (detect_profile_decision [80, 60] = "confirm" ↔
        ¬(75 ≤ top ∧ 12 ≤ top - second) ∧ 50 ≤ top) ∧
      (detect_profile_decision [80, 60] = "manual" ↔
        ¬(75 ≤ top ∧ 12 ≤ top - second) ∧ ¬(50 ≤ top))) :=
  ⟨by decide, detect_profile_decision_tiers [80, 60] (by decide)⟩

end V2X

namespace V2X

theorem keyLt_iff (p q : Int × String) :
    keyLt p q = true ↔ (p.1 < q.1 ∨ (p.1 = q.1 ∧ p.2 < q.2)) := by
  simp [keyLt]

theorem keyLt_trichotomy (p q : Int × String) :
    keyLt p q = true ∨ p = q ∨ keyLt q p = true := by
  rcases lt_trichotomy p.1 q.1 with h | h | h
  · exact Or.inl ((keyLt_iff p q).mpr (Or.inl h))
  · rcases lt_trichotomy p.2 q.2 with h2 | h2 | h2
    · exact Or.inl ((keyLt_iff p q).mpr (Or.inr ⟨h, h2⟩))
    · exact Or.inr (Or.inl (Prod.ext h h2))
    · exact Or.inr (Or.inr ((keyLt_iff q p).mpr (Or.inr ⟨h.symm, h2⟩)))
  · exact Or.inr (Or.inr ((keyLt_iff q p).mpr (Or.inl h)))

theorem keyLt_trans {p q r : Int × String}
    (h1 : keyLt p q = true) (h2 : keyLt q r = true) : keyLt p r = true := by
  rcases (keyLt_iff p q).mp h1 with ha | ⟨ha, ha2⟩ <;>
    rcases (keyLt_iff q r).mp h2 with hb | ⟨hb, hb2⟩
  · exact (keyLt_iff p r).mpr (Or.inl (lt_trans ha hb))
  · exact (keyLt_iff p r).mpr (Or.inl (hb ▸ ha))
  · exact (keyLt_iff p r).mpr (Or.inl (ha ▸ hb))
  · exact (keyLt_iff p r).mpr (Or.inr ⟨ha.trans hb, lt_trans ha2 hb2⟩)

theorem keyLt_irrefl (p : Int × String) : keyLt p p = false := by
  simp [keyLt]

/-- C9 counterexample: the scene id `2000000000000000000` parses as an
integer yet sorts after the non-numeric id `abc`, because the lexicographic
fallback uses the finite sentinel `10**18`, which this numeric id exceeds. -/
theorem scene_sort_key_counterexample :
    pyIntOfString "2000000000000000000" = some 2000000000000000000 ∧
    pyIntOfString "abc" = none ∧
    keyLt (_scene_sort_key "abc") (_scene_sort_key "2000000000000000000") = true ∧
    keyLt (_scene_sort_key "2000000000000000000") (_scene_sort_key "abc") = false ∧
    sortSceneIds ["2000000000000000000", "abc"] = ["abc", "2000000000000000000"] := by
  decide

/-- C9 (amended): scenes are sorted ascending by the key
`(int(id), id)` when the id parses as an integer, else `(10**18, id)`;
numeric ids are ordered by integer value, and every numeric id whose value
is below the `10**18` sentinel is ordered before every non-numeric id (ids
with numeric value `≥ 10**18` can sort after non-numeric ids, see the
counterexample). -/
theorem scene_sort_key_amended :
    (∀ a b : String, ∀ m n : Int, pyIntOfString a = some m → pyIntOfString b = some n →
      m < n → keyLt (_scene_sort_key a) (_scene_sort_key b) = true) ∧
    (∀ a b : String, ∀ m : Int, pyIntOfString a = some m → m < 10 ^ 18 →
      pyIntOfString b = none → keyLt (_scene_sort_key a) (_scene_sort_key b) = true) ∧
    (∀ ids : List String,
      (sortSceneIds ids).Pairwise
        (fun a b => keyLt (_scene_sort_key b) (_scene_sort_key a) = false)) ∧
    (∀ ids : List String, List.Perm (sortSceneIds ids) ids) := by
  refine ⟨?_, ?_, ?_, ?_⟩
  · intro a b m n ha hb hmn
    simp only [_scene_sort_key, ha, hb]
    exact (keyLt_iff (m, a) (n, b)).mpr (Or.inl hmn)
  · intro a b m ha hm hb
    simp only [_scene_sort_key, ha, hb]
    exact (keyLt_iff (m, a) (10 ^ 18, b)).mpr (Or.inl hm)
  · intro ids
    have htrans : ∀ x y z : String,
        (fun a b => !(keyLt (_scene_sort_key b) (_scene_sort_key a))) x y = true →
        (fun a b => !(keyLt (_scene_sort_key b) (_scene_sort_key a))) y z = true →
        (fun a b => !(keyLt (_scene_sort_key b) (_scene_sort_key a))) x z = true := by
      intro x y z hxy hyz
      simp only [Bool.not_eq_true', Bool.not_eq_true] at hxy hyz ⊢
      rcases hzx : keyLt (_scene_sort_key z) (_scene_sort_key x) with _ | _
      · rfl
      · exfalso
        rcases keyLt_trichotomy (_scene_sort_key x) (_scene_sort_key y) with h | h | h
        · have := keyLt_trans hzx h
          rw [this] at hyz
          exact Bool.true_eq_false.mp hyz
        · rw [h] at hzx
          rw [hzx] at hyz
          exact Bool.true_eq_false.mp hyz
        · rw [h] at hxy
          exact Bool.true_eq_false.mp hxy
    have htot : ∀ x y : String,
        (fun a b => !(keyLt (_scene_sort_key b) (_scene_sort_key a))) x y = false →
        (fun a b => !(keyLt (_scene_sort_key b) (_scene_sort_key a))) y x = true := by
      intro x y hxy
      simp only [Bool.not_eq_false'] at hxy
      simp only [Bool.not_eq_true']
      rcases hyx : keyLt (_scene_sort_key x) (_scene_sort_key y) with _ | _
      · rfl
      · exfalso
        have := keyLt_trans hxy hyx
        rw [keyLt_irrefl] at this
        exact Bool.false_eq_true.mp this
    have hpw := pairwise_pySort htrans htot ids
    refine hpw.imp ?_
    intro a b h
    simpa using h
  · intro ids
    exact pySort_perm _ ids

/-- Witness for the amended scene-sort-key theorem: the numeric id `7`
(below the sentinel) is ordered before the non-numeric id `x`, and `3`
before `7`. -/
theorem scene_sort_key_amended_witness :
    keyLt (_scene_sort_key "3") (_scene_sort_key "7") = true ∧
    keyLt (_scene_sort_key "7") (_scene_sort_key "x") = true :=
  ⟨scene_sort_key_amended.1 "3" "7" 3 7 (by decide) (by decide) (by decide),
   scene_sort_key_amended.2.1 "7" "x" 7 (by decide) (by decide) (by decide)⟩

end V2X

namespace V2X

theorem Flt.blt_val (q r : ℚ) : Flt.blt (.val q) (.val r) = decide (q < r) := rfl

/-- Union of two well-formed finite boxes is the componentwise min/max box. -/
theorem bbox_union_wf_eq (a b c d e f g h' : ℚ) (hac : a ≤ c) (hbd : b ≤ d)
    (heg : e ≤ g) (hfh : f ≤ h') :
    bbox_update_from_bbox ⟨.val a, .val b, .val c, .val d⟩ ⟨.val e, .val f, .val g, .val h'⟩ =
      ⟨.val (min a e), .val (min b f), .val (max c g), .val (max d h')⟩ := by
  have hvalid : bbox_is_valid ⟨.val e, .val f, .val g, .val h'⟩ = true := by
    simp [bbox_is_valid]
  simp only [bbox_update_from_bbox, hvalid, if_true]
  simp only [bbox_update, Flt.blt_val]
  simp only [FBbox.mk.injEq]
  refine ⟨?_, ?_, ?_, ?_⟩ <;>
    · split_ifs <;>
        simp_all only [Flt.blt_val, decide_eq_true_eq, Flt.val.injEq, min_def, max_def] <;>
        split_ifs <;> first | rfl | linarith

/-- C6 counterexample: two boxes that both satisfy the code's
`bbox_is_valid` (which checks only that `min_x` is not `+inf` and `max_x`
is not `-inf`) whose union depends on the operand order, so the union is
not commutative over all valid boxes. -/
theorem bbox_union_counterexample :
    bbox_is_valid ⟨.val 0, .val 0, .val 1, .val 1⟩ = true ∧
    bbox_is_valid ⟨.val 5, .val 0, .val 0, .val 1⟩ = true ∧
    bbox_update_from_bbox ⟨.val 0, .val 0, .val 1, .val 1⟩ ⟨.val 5, .val 0, .val 0, .val 1⟩ ≠
      bbox_update_from_bbox ⟨.val 5, .val 0, .val 0, .val 1⟩ ⟨.val 0, .val 0, .val 1, .val 1⟩ := by
  refine ⟨by decide, by decide, ?_⟩
  intro hcontra
  have h1 : bbox_update_from_bbox ⟨.val 0, .val 0, .val 1, .val 1⟩
      ⟨.val 5, .val 0, .val 0, .val 1⟩ = ⟨.val 0, .val 0, .val 5, .val 1⟩ := by decide
  have h2 : bbox_update_from_bbox ⟨.val 5, .val 0, .val 0, .val 1⟩
      ⟨.val 0, .val 0, .val 1, .val 1⟩ = ⟨.val 0, .val 0, .val 1, .val 1⟩ := by decide
  rw [h1, h2] at hcontra
  have h5 : (5 : ℚ) = 1 := by
    have := congrArg FBbox.max_x hcontra
    simpa using this
  norm_num at h5

/-- C6 (amended): the invalid box is exactly `bbox_init =
(+inf, +inf, -inf, -inf)`; union with it as the source is a no-op for every
destination, and union of `bbox_init` with a well-formed box yields that box;
over well-formed boxes (finite coordinates with `min ≤ max` on each axis)
the union is commutative and associative.  Over boxes that merely pass the
code's `bbox_is_valid`, order-independence fails (see the counterexample). -/
theorem bbox_union_algebra :
    (bbox_init = ⟨.pinf, .pinf, .ninf, .ninf⟩) ∧
    (∀ dst : FBbox, bbox_update_from_bbox dst bbox_init = dst) ∧
    (∀ e f g h' : ℚ, e ≤ g → f ≤ h' →
      bbox_update_from_bbox bbox_init ⟨.val e, .val f, .val g, .val h'⟩ =
        ⟨.val e, .val f, .val g, .val h'⟩) ∧
    (∀ a b c d e f g h' : ℚ, a ≤ c → b ≤ d → e ≤ g → f ≤ h' →
      bbox_update_from_bbox ⟨.val a, .val b, .val c, .val d⟩
          ⟨.val e, .val f, .val g, .val h'⟩ =
        bbox_update_from_bbox ⟨.val e, .val f, .val g, .val h'⟩
          ⟨.val a, .val b, .val c, .val d⟩) ∧
    (∀ a1 b1 c1 d1 a2 b2 c2 d2 a3 b3 c3 d3 : ℚ,
      a1 ≤ c1 → b1 ≤ d1 → a2 ≤ c2 → b2 ≤ d2 → a3 ≤ c3 → b3 ≤ d3 →
      bbox_update_from_bbox
          (bbox_update_from_bbox ⟨.val a1, .val b1, .val c1, .val d1⟩
            ⟨.val a2, .val b2, .val c2, .val d2⟩)
          ⟨.val a3, .val b3, .val c3, .val d3⟩ =
        bbox_update_from_bbox ⟨.val a1, .val b1, .val c1, .val d1⟩
          (bbox_update_from_bbox ⟨.val a2, .val b2, .val c2, .val d2⟩
            ⟨.val a3, .val b3, .val c3, .val d3⟩)) := by
  refine ⟨rfl, ?_, ?_, ?_, ?_⟩
  · intro dst
    simp [bbox_update_from_bbox, bbox_is_valid, bbox_init]
  · intro e f g h' heg hfh
    have hvalid : bbox_is_valid ⟨.val e, .val f, .val g, .val h'⟩ = true := by
      simp [bbox_is_valid]
    simp only [bbox_update_from_bbox, hvalid, if_true, bbox_init, bbox_update, Flt.blt]
    simp only [FBbox.mk.injEq]
    refine ⟨?_, ?_, ?_, ?_⟩ <;>
      · split_ifs <;>
          simp_all only [decide_eq_true_eq, Flt.val.injEq] <;> linarith
  · intro a b c d e f g h' hac hbd heg hfh
    rw [bbox_union_wf_eq a b c d e f g h' hac hbd heg hfh,
      bbox_union_wf_eq e f g h' a b c d heg hfh hac hbd]
    simp [min_comm, max_comm]
  · intro a1 b1 c1 d1 a2 b2 c2 d2 a3 b3 c3 d3 h1 h2 h3 h4 h5 h6
    rw [bbox_union_wf_eq a1 b1 c1 d1 a2 b2 c2 d2 h1 h2 h3 h4,
      bbox_union_wf_eq a2 b2 c2 d2 a3 b3 c3 d3 h3 h4 h5 h6,
      bbox_union_wf_eq (min a1 a2) (min b1 b2) (max c1 c2) (max d1 d2) a3 b3 c3 d3
        (le_trans (min_le_left a1 a2) (le_trans h1 (le_max_left c1 c2)))
        (le_trans (min_le_left b1 b2) (le_trans h2 (le_max_left d1 d2))) h5 h6,
      bbox_union_wf_eq a1 b1 c1 d1 (min a2 a3) (min b2 b3) (max c2 c3) (max d2 d3) h1 h2
        (le_trans (min_le_left a2 a3) (le_trans h3 (le_max_left c2 c3)))
        (le_trans (min_le_left b2 b3) (le_trans h4 (le_max_left d2 d3)))]
    simp [min_assoc, max_assoc]

/-- Witness for the amended bbox-union theorem at concrete well-formed
boxes. -/
theorem bbox_union_algebra_witness :
    bbox_update_from_bbox bbox_init ⟨.val 1, .val 2, .val 3, .val 4⟩ =
      ⟨.val 1, .val 2, .val 3, .val 4⟩ ∧
    bbox_update_from_bbox ⟨.val 0, .val 0, .val 2, .val 2⟩ ⟨.val 1, .val 1, .val 3, .val 3⟩ =
      bbox_update_from_bbox ⟨.val 1, .val 1, .val 3, .val 3⟩ ⟨.val 0, .val 0, .val 2, .val 2⟩ :=
  ⟨bbox_union_algebra.2.2.1 1 2 3 4 (by norm_num) (by norm_num),
   bbox_union_algebra.2.2.2.1 0 0 2 2 1 1 3 3 (by norm_num) (by norm_num)
     (by norm_num) (by norm_num)⟩

end V2X

namespace V2X

theorem indWindowsGo_empty (wf m s fuel : Nat) (h : m < s) :
    indWindowsGo wf m s fuel = [] := by
  cases fuel with
  | zero => rfl
  | succ fuel => simp [indWindowsGo, Nat.not_le.mpr h]

theorem indWindowsGo_eq (wf : Nat) (hwf : 1 ≤ wf) (m : Nat) :
    ∀ fuel k, k * wf ≤ m → m + 1 - k * wf ≤ fuel →
      indWindowsGo wf m (k * wf) fuel =
        (List.range (m / wf + 1 - k)).map
          (fun i => ((k + i) * wf, min m ((k + i) * wf + wf - 1))) := by
  intro fuel
  induction fuel with
  | zero =>
      intro k h1 h2
      omega
  | succ fuel ih =>
      intro k h1 h2
      have hkw : (k + 1) * wf = k * wf + wf := by ring
      have hdivk : k ≤ m / wf := (Nat.le_div_iff_mul_le hwf).mpr h1
      simp only [indWindowsGo, h1, if_true]
      by_cases hfull : k * wf + wf - 1 ≤ m
      · have hmin : min m (k * wf + wf - 1) = k * wf + wf - 1 := min_eq_right hfull
        have hnext : k * wf + wf - 1 + 1 = (k + 1) * wf := by omega
        by_cases hin : (k + 1) * wf ≤ m
        · have hfuel2 : m + 1 - (k + 1) * wf ≤ fuel := by omega
          have ihr := ih (k + 1) hin hfuel2
          rw [hmin, hnext, ihr]
          have hcount : m / wf + 1 - k = (m / wf + 1 - (k + 1)) + 1 := by omega
          rw [hcount, List.range_succ_eq_map, List.map_cons, List.map_map]
          refine congrArg₂ _ ?_ ?_
          · simp [hmin]
          · refine List.map_congr_left ?_
            intro i _
            simp only [Function.comp_apply]
            have : k + (i + 1) = k + 1 + i := by omega
            rw [this]
        · have hm : m < (k + 1) * wf := Nat.not_le.mp hin
          rw [hmin, hnext, indWindowsGo_empty wf m _ fuel hm]
          have hdiv : m / wf = k := by
            have h2' : m / wf < k + 1 := (Nat.div_lt_iff_lt_mul (by omega)).mpr
              (by omega)
            omega
          rw [hdiv]
          have hone : k + 1 - k = 1 := by omega
          rw [hone, show List.range 1 = [0] from rfl]
          simp only [List.map_cons, List.map_nil, Nat.add_zero, hmin]
      · have hm2 : m < k * wf + wf - 1 := Nat.not_le.mp hfull
        have hmin : min m (k * wf + wf - 1) = m := min_eq_left (by omega)
        rw [hmin, indWindowsGo_empty wf m (m + 1) fuel (by omega)]
        have hdiv : m / wf = k := by
          have h2' : m / wf < k + 1 := (Nat.div_lt_iff_lt_mul (by omega)).mpr (by omega)
          omega
        rw [hdiv]
        have hone : k + 1 - k = 1 := by omega
        rw [hone, show List.range 1 = [0] from rfl]
        simp only [List.map_cons, List.map_nil, Nat.add_zero, hmin]

theorem indWindows_eq_spec (wf m : Nat) (hwf : 1 ≤ wf) :
    indWindows wf m = indWindowsSpec wf m := by
  have h := indWindowsGo_eq wf hwf m (m + 1) 0 (by simp) (by omega)
  simpa [indWindows, indWindowsSpec] using h

/-- C2: for every recording, `InDAdapter._build_index` partitions the frame
range `[0, max_frame]` into consecutive non-overlapping windows of
`round(window_s * frame_rate)` frames (window `i` spans
`[i*wf, min max_frame ((i+1)*wf - 1)]`, so the last window may be shorter);
with `max_frame = 2499`, `frame_rate = 25` and `window_s = 60` this yields
exactly the two windows `[0, 1499]` and `[1500, 2499]`. -/
theorem ind_fixed_windows :
    (∀ wf m, 1 ≤ wf → indWindows wf m = indWindowsSpec wf m) ∧
    ind_window_frames 60 25 = 1500 ∧
    indWindows (ind_window_frames 60 25) 2499 = [(0, 1499), (1500, 2499)] := by
  have h1500 : ind_window_frames 60 25 = 1500 := by
    have hq : (60 : ℚ) * 25 = 1500 := by norm_num
    have hr : pyRound ((60 : ℚ) * 25) = 1500 := by
      rw [hq]
      have hfl : ⌊(1500 : ℚ)⌋ = 1500 := by norm_num
      simp only [pyRound, hfl]
      norm_num
    simp [ind_window_frames, hr]
  refine ⟨fun wf m h => indWindows_eq_spec wf m h, h1500, ?_⟩
  rw [h1500]
  decide

/-- Witness for the InD window theorem at concrete parameters. -/
theorem ind_fixed_windows_witness :
    1 ≤ 2 ∧ indWindows 2 5 = indWindowsSpec 2 5 :=
  ⟨by decide, ind_fixed_windows.1 2 5 (by decide)⟩

end V2X

namespace V2X

theorem pyRangeGo_mem {n s : Nat} :
    ∀ {fuel cur x : Nat}, x ∈ pyRangeGo n s cur fuel → cur ≤ x ∧ x < n := by
  intro fuel
  induction fuel with
  | zero =>
      intro cur x h
      simp [pyRangeGo] at h
  | succ fuel ih =>
      intro cur x h
      by_cases hc : cur < n
      · simp only [pyRangeGo, hc, if_true] at h
        rcases List.mem_cons.mp h with rfl | h
        · exact ⟨le_refl x, hc⟩
        · have h2 := ih h
          exact ⟨le_trans (Nat.le_add_right cur s) h2.1, h2.2⟩
      · simp [pyRangeGo, hc] at h

theorem pyRange_mem {n s x : Nat} (h : x ∈ pyRange n s) : x < n :=
  (pyRangeGo_mem h).2

theorem pyRange_eq_cons {n s : Nat} (hn : 0 < n) :
    pyRange n s = 0 :: pyRangeGo n s s n := by
  cases n with
  | zero => omega
  | succ n => simp [pyRange, pyRangeGo]

theorem getLast?_map (g : β → α) : ∀ l : List β, (l.map g).getLast? = l.getLast?.map g := by
  intro l
  induction l with
  | nil => rfl
  | cons a t ih =>
      cases t with
      | nil => rfl
      | cons b t2 =>
          simpa [List.getLast?_cons_cons] using ih

theorem two_le_length_of_head_last {l : List Nat} {a b : Nat}
    (ha : l.head? = some a) (hb : l.getLast? = some b) (hne : a ≠ b) : 2 ≤ l.length := by
  cases l with
  | nil => simp at ha
  | cons x t =>
      cases t with
      | nil =>
          simp at ha hb
          omega
      | cons y t2 => simp

theorem filterMap_getElem (points : List α) (d : α) :
    ∀ idxs : List Nat, (∀ i ∈ idxs, i < points.length) →
      idxs.filterMap (fun i => points[i]?) = idxs.map (fun i => (points[i]?).getD d) := by
  intro idxs
  induction idxs with
  | nil => simp
  | cons a t ih =>
      intro h
      have ha : a < points.length := h a (List.mem_cons_self a t)
      have hsome : points[a]? = some (points.get ⟨a, ha⟩) := by
        simp [List.getElem?_eq_getElem ha]
      rw [List.filterMap_cons, List.map_cons, hsome,
        ih (fun i hi => h i (List.mem_cons_of_mem a hi))]
      simp

end V2X

namespace V2X

theorem downsampleIdxs_mem {n s i : Nat} (hn : 0 < n) (h : i ∈ downsampleIdxs n s) :
    i < n := by
  simp only [downsampleIdxs] at h
  by_cases hc : (pyRange n s).getLast? ≠ some (n - 1)
  · rw [if_pos hc] at h
    rcases List.mem_append.mp h with h2 | h2
    · exact pyRange_mem h2
    · rw [List.mem_singleton.mp h2]
      omega
  · rw [if_neg hc] at h
    exact pyRange_mem h

theorem downsampleIdxs_head {n s : Nat} (hn : 0 < n) :
    (downsampleIdxs n s).head? = some 0 := by
  simp only [downsampleIdxs]
  have h0 := pyRange_eq_cons (s := s) hn
  by_cases hc : (pyRange n s).getLast? ≠ some (n - 1)
  · rw [if_pos hc, h0]
    simp
  · rw [if_neg hc, h0]
    simp

theorem downsampleIdxs_getLast {n s : Nat} :
    (downsampleIdxs n s).getLast? = some (n - 1) := by
  simp only [downsampleIdxs]
  by_cases hc : (pyRange n s).getLast? ≠ some (n - 1)
  · rw [if_pos hc]
    exact List.getLast?_concat _
  · rw [if_neg hc]
    exact not_not.mp hc

theorem downsampleIdxs_two_le {n s : Nat} (hn : 2 ≤ n) :
    2 ≤ (downsampleIdxs n s).length :=
  two_le_length_of_head_last (downsampleIdxs_head (by omega)) downsampleIdxs_getLast
    (by omega)

theorem downsample_long_facts {α : Type} (step : Int) (points : List α)
    (hshort : ¬(max 1 step ≤ 1 ∨ (points.length : Int) ≤ max 12 (max 1 step * 2))) :
    (_downsample_polyline points step).head? = points.head? ∧
    (_downsample_polyline points step).getLast? = points.getLast? ∧
    2 ≤ (_downsample_polyline points step).length ∧
    ∀ q ∈ _downsample_polyline points step, q ∈ points := by
  have hsh := hshort
  push_neg at hsh
  obtain ⟨hs1, hlen⟩ := hsh
  have h12 : (12 : Int) ≤ max 12 (max 1 step * 2) := le_max_left _ _
  have hlen13 : 13 ≤ points.length := by omega
  have hn0 : 0 < points.length := by omega
  have hlast_lt : points.length - 1 < points.length := by omega
  simp only [_downsample_polyline]
  rw [if_neg hshort]
  have hmem : ∀ i ∈ downsampleIdxs points.length (max 1 step).toNat, i < points.length :=
    fun i hi => downsampleIdxs_mem hn0 hi
  have hout := filterMap_getElem points (points.get ⟨0, hn0⟩) _ hmem
  rw [hout]
  have hlen2 := downsampleIdxs_two_le (n := points.length) (s := (max 1 step).toNat)
    (by omega)
  rw [if_neg (by
    intro hcontra
    rw [List.length_map] at hcontra
    omega)]
  have hd0 : points[(0 : Nat)]? = some (points.get ⟨0, hn0⟩) := by
    simp [List.getElem?_eq_getElem hn0]
  have hdlast : points[points.length - 1]? =
      some (points.get ⟨points.length - 1, hlast_lt⟩) := by
    simp [List.getElem?_eq_getElem hlast_lt]
  refine ⟨?_, ?_, ?_, ?_⟩
  · rcases hshape : downsampleIdxs points.length (max 1 step).toNat with _ | ⟨i0, t⟩
    · have hh := downsampleIdxs_head (n := points.length) (s := (max 1 step).toNat) hn0
      rw [hshape] at hh
      simp at hh
    · have hh := downsampleIdxs_head (n := points.length) (s := (max 1 step).toNat) hn0
      rw [hshape] at hh
      simp at hh
      subst hh
      have hph : points.head? = some (points.get ⟨0, hn0⟩) := by
        cases points with
        | nil => simp at hn0
        | cons p ps => rfl
      simp [hd0, hph]
  · rw [getLast?_map, downsampleIdxs_getLast]
    rw [List.getLast?_eq_getElem? points]
    simp [hdlast]
  · rw [List.length_map]
    exact hlen2
  · intro q hq
    rw [List.mem_map] at hq
    obtain ⟨i, hi, hqi⟩ := hq
    have hilt := hmem i hi
    have hsome : points[i]? = some (points.get ⟨i, hilt⟩) := by
      simp [List.getElem?_eq_getElem hilt]
    rw [← hqi, hsome]
    simp only [Option.getD_some]
    exact List.get_mem points i hilt

end V2X

namespace V2X

theorem downsample_short {α : Type} (step : Int) (points : List α)
    (h : (points.length : Int) ≤ max 12 (2 * step)) :
    _downsample_polyline points step = points := by
  simp only [_downsample_polyline]
  rcases max_choice 1 step with hm | hm
  · rw [if_pos (Or.inl (le_of_eq hm))]
  · rw [if_pos (Or.inr (by rw [hm, mul_comm]; exact h))]

/-- C7: `_downsample_polyline` is the identity (hence idempotent) on
polylines with at most `max(12, 2*step)` points; on longer polylines it
keeps the first and last point, emits at least 2 points whenever the input
has at least 2, and only ever emits points of the input; sampling
`range 30` with step 5 keeps every 5th point plus the forced final one. -/
theorem downsample_polyline_props :
    (∀ (α : Type) (step : Int) (points : List α),
      (points.length : Int) ≤ max 12 (2 * step) → _downsample_polyline points step = points) ∧
    (∀ (α : Type) (step : Int) (points : List α),
      (points.length : Int) ≤ max 12 (2 * step) →
      _downsample_polyline (_downsample_polyline points step) step =
        _downsample_polyline points step) ∧
    (∀ (α : Type) (step : Int) (points : List α), 2 ≤ points.length →
      (_downsample_polyline points step).head? = points.head? ∧
      (_downsample_polyline points step).getLast? = points.getLast? ∧
      2 ≤ (_downsample_polyline points step).length) ∧
    (∀ (α : Type) (step : Int) (points : List α),
      ∀ q ∈ _downsample_polyline points step, q ∈ points) ∧
    _downsample_polyline (List.range 30) 5 = [0, 5, 10, 15, 20, 25, 29] := by
  refine ⟨?_, ?_, ?_, ?_, ?_⟩
  · intro α step points h
    exact downsample_short step points h
  · intro α step points h
    rw [downsample_short step points h, downsample_short step points h]
  · intro α step points h2
    by_cases hshort : max 1 step ≤ 1 ∨ (points.length : Int) ≤ max 12 (max 1 step * 2)
    · have heq : _downsample_polyline points step = points := by
        simp only [_downsample_polyline]
        rw [if_pos hshort]
      rw [heq]
      exact ⟨rfl, rfl, h2⟩
    · obtain ⟨ha, hb, hc, _⟩ := downsample_long_facts step points hshort
      exact ⟨ha, hb, hc⟩
  · intro α step points q hq
    by_cases hshort : max 1 step ≤ 1 ∨ (points.length : Int) ≤ max 12 (max 1 step * 2)
    · have heq : _downsample_polyline points step = points := by
        simp only [_downsample_polyline]
        rw [if_pos hshort]
      rw [heq] at hq
      exact hq
    · exact (downsample_long_facts step points hshort).2.2.2 q hq
  · decide

/-- Witness for the downsampling theorem at concrete inputs. -/
theorem downsample_polyline_props_witness :
    ((List.range 10).length : Int) ≤ max 12 (2 * 3) ∧
    _downsample_polyline (List.range 10) 3 = List.range 10 ∧
    2 ≤ (List.range 10).length ∧
    2 ≤ (_downsample_polyline (List.range 10) 3).length :=
  ⟨by decide, downsample_polyline_props.1 Nat 3 (List.range 10) (by decide),
   by decide, (downsample_polyline_props.2.2.1 Nat 3 (List.range 10) (by decide)).2.2⟩

end V2X

namespace V2X

/-- C3: `_clip_map_features` keeps exactly the lanes whose bbox intersects
the clip extent when their number is at most `max_lanes` (with
`lanes_truncated = false`); otherwise it keeps `max_lanes` of them, each of
whose bbox-center squared distance to the focus point (or extent centroid
when no focus is given) is at most that of every dropped lane, and sets
`lanes_truncated = true`.  With `max_lanes = 2` and three candidate lanes
at squared distances 1, 25, 100 from the focus the two nearest are kept. -/
theorem clip_map_features_spec :
    (∀ (lanes : List Lane) (extent : QBbox) (max_lanes : Nat) (focus : Option (ℚ × ℚ)),
      0 < max_lanes →
      (((lanes.filter (fun l => bbox_intersects l.bbox extent)).length ≤ max_lanes →
        _clip_map_features lanes extent max_lanes focus =
          (lanes.filter (fun l => bbox_intersects l.bbox extent), false)) ∧
       (max_lanes < (lanes.filter (fun l => bbox_intersects l.bbox extent)).length →
        (_clip_map_features lanes extent max_lanes focus).2 = true ∧
        (_clip_map_features lanes extent max_lanes focus).1.length = max_lanes ∧
        (∃ rest : List Lane,
          List.Perm ((_clip_map_features lanes extent max_lanes focus).1 ++ rest)
            (lanes.filter (fun l => bbox_intersects l.bbox extent)) ∧
          ∀ a ∈ (_clip_map_features lanes extent max_lanes focus).1, ∀ b ∈ rest,
            laneDist2 (clipFocus extent focus).1 (clipFocus extent focus).2 a ≤
              laneDist2 (clipFocus extent focus).1 (clipFocus extent focus).2 b)))) ∧
    _clip_map_features
      [⟨1, ⟨1, 0, 1, 0⟩⟩, ⟨2, ⟨5, 0, 5, 0⟩⟩, ⟨3, ⟨10, 0, 10, 0⟩⟩]
      ⟨0, 0, 20, 20⟩ 2 (some (0, 0)) =
      ([⟨1, ⟨1, 0, 1, 0⟩⟩, ⟨2, ⟨5, 0, 5, 0⟩⟩], true) := by
  constructor
  · intro lanes extent max_lanes focus hpos
    constructor
    · intro hle
      simp only [_clip_map_features]
      rw [if_neg]
      intro hcontra
      omega
    · intro hgt
      have htrans : ∀ a b c : Lane,
          (fun a b : Lane => decide (laneDist2 (clipFocus extent focus).1
            (clipFocus extent focus).2 a ≤ laneDist2 (clipFocus extent focus).1
            (clipFocus extent focus).2 b)) a b = true →
          (fun a b : Lane => decide (laneDist2 (clipFocus extent focus).1
            (clipFocus extent focus).2 a ≤ laneDist2 (clipFocus extent focus).1
            (clipFocus extent focus).2 b)) b c = true →
          (fun a b : Lane => decide (laneDist2 (clipFocus extent focus).1
            (clipFocus extent focus).2 a ≤ laneDist2 (clipFocus extent focus).1
            (clipFocus extent focus).2 b)) a c = true := by
        intro a b c hab hbc
        simp only [decide_eq_true_eq] at hab hbc ⊢
        exact le_trans hab hbc
      have htot : ∀ a b : Lane,
          (fun a b : Lane => decide (laneDist2 (clipFocus extent focus).1
            (clipFocus extent focus).2 a ≤ laneDist2 (clipFocus extent focus).1
            (clipFocus extent focus).2 b)) a b = false →
          (fun a b : Lane => decide (laneDist2 (clipFocus extent focus).1
            (clipFocus extent focus).2 a ≤ laneDist2 (clipFocus extent focus).1
            (clipFocus extent focus).2 b)) b a = true := by
        intro a b hab
        simp only [decide_eq_false_iff_not] at hab
        simp only [decide_eq_true_eq]
        exact le_of_not_le hab
      have hperm := pySort_perm (fun a b : Lane => decide (laneDist2
        (clipFocus extent focus).1 (clipFocus extent focus).2 a ≤
        laneDist2 (clipFocus extent focus).1 (clipFocus extent focus).2 b))
        (lanes.filter (fun l => bbox_intersects l.bbox extent))
      have hpw := pairwise_pySort htrans htot
        (lanes.filter (fun l => bbox_intersects l.bbox extent))
      simp only [_clip_map_features]
      rw [if_pos ⟨by omega, hgt⟩]
      refine ⟨rfl, ?_, ?_⟩
      · simp only [List.length_take]
        rw [hperm.length_eq]
        omega
      · refine ⟨(pySort (fun a b : Lane => decide (laneDist2
          (clipFocus extent focus).1 (clipFocus extent focus).2 a ≤
          laneDist2 (clipFocus extent focus).1 (clipFocus extent focus).2 b))
          (lanes.filter (fun l => bbox_intersects l.bbox extent))).drop max_lanes,
          ?_, ?_⟩
        · rw [List.take_append_drop]
          exact hperm
        · intro a ha b hb
          rw [← List.take_append_drop max_lanes (pySort _ _)] at hpw
          have h3 := (List.pairwise_append.mp hpw).2.2 a ha b hb
          simpa using h3
  · have h12 : laneDist2 0 0 (⟨1, ⟨1, 0, 1, 0⟩⟩ : Lane) ≤
        laneDist2 0 0 (⟨2, ⟨5, 0, 5, 0⟩⟩ : Lane) := by
      norm_num [laneDist2]
    have h23 : laneDist2 0 0 (⟨2, ⟨5, 0, 5, 0⟩⟩ : Lane) ≤
        laneDist2 0 0 (⟨3, ⟨10, 0, 10, 0⟩⟩ : Lane) := by
      norm_num [laneDist2]
    simp only [_clip_map_features]
    rw [show List.filter
        (fun l : Lane => bbox_intersects l.bbox (⟨0, 0, 20, 20⟩ : QBbox))
        ([⟨1, ⟨1, 0, 1, 0⟩⟩, ⟨2, ⟨5, 0, 5, 0⟩⟩, ⟨3, ⟨10, 0, 10, 0⟩⟩] : List Lane) =
        ([⟨1, ⟨1, 0, 1, 0⟩⟩, ⟨2, ⟨5, 0, 5, 0⟩⟩, ⟨3, ⟨10, 0, 10, 0⟩⟩] : List Lane)
        from by decide]
    rw [if_pos (by simp)]
    simp only [clipFocus, pySort, pyInsert]
    rw [if_pos (decide_eq_true h23)]
    simp only [pyInsert]
    rw [if_pos (decide_eq_true h12)]
    simp

/-- Witness for the map-clip theorem: the no-truncation branch at a concrete
empty lane list. -/
theorem clip_map_features_spec_witness :
    _clip_map_features [] ⟨0, 0, 1, 1⟩ 1 none = ([], false) :=
  (clip_map_features_spec.1 [] ⟨0, 0, 1, 1⟩ 1 none (by decide)).1 (by decide)

end V2X

namespace V2X

theorem tsGet_eq_nil_of_not_mem {α : Type} {m : List (Int × List α)} {k : Int}
    (h : k ∉ m.map Prod.fst) : tsGet m k = [] := by
  simp only [tsGet]
  rw [List.find?_eq_none.mpr]
  · rfl
  · intro p hp
    simp only [beq_iff_eq]
    intro hk
    exact h (hk ▸ List.mem_map_of_mem Prod.fst hp)

theorem v2xUnionTicks_pairwise_lt (e i v t : List Int) :
    (v2xUnionTicks e i v t).Pairwise (· < ·) := by
  have htrans : ∀ a b c : Int, (fun a b : Int => decide (a ≤ b)) a b = true →
      (fun a b : Int => decide (a ≤ b)) b c = true →
      (fun a b : Int => decide (a ≤ b)) a c = true := by
    intro a b c hab hbc
    simp only [decide_eq_true_eq] at hab hbc ⊢
    omega
  have htot : ∀ a b : Int, (fun a b : Int => decide (a ≤ b)) a b = false →
      (fun a b : Int => decide (a ≤ b)) b a = true := by
    intro a b hab
    simp only [decide_eq_false_iff_not] at hab
    simp only [decide_eq_true_eq]
    omega
  have hperm := pySort_perm (fun a b : Int => decide (a ≤ b)) ((e ++ i ++ v ++ t).dedup)
  have hnodup : (v2xUnionTicks e i v t).Nodup :=
    hperm.nodup_iff.mpr (List.nodup_dedup _)
  have hpw := pairwise_pySort htrans htot ((e ++ i ++ v ++ t).dedup)
  have hand := hpw.and hnodup
  refine hand.imp ?_
  intro a b hab
  have h1 : a ≤ b := by simpa using hab.1
  have h2 : a ≠ b := hab.2
  omega

theorem v2xUnionTicks_mem (e i v t : List Int) (x : Int) :
    x ∈ v2xUnionTicks e i v t ↔ x ∈ e ∨ x ∈ i ∨ x ∈ v ∨ x ∈ t := by
  unfold v2xUnionTicks
  rw [(pySort_perm _ _).mem_iff]
  simp [or_assoc]

/-- C5: in every bundle produced by `V2XTrajAdapter.load_scene_bundle`, the
frame ticks are strictly increasing, are exactly the union of the timestamp
keys of the four modalities, and the bundle emits exactly one frame per tick
(whose per-modality records are the dictionary lookups, the empty sequence
when the modality has no entry at that tick); the published timestamps are
the ticks scaled to seconds. -/
theorem v2x_bundle_frames_invariant {α μ : Type} (fs : Modality → Option (TrajCsv α))
    (scene_id : String) (include_map : Bool) (map_try : Except String (μ × List String)) :
    List.Pairwise (· < ·)
      (v2xUnionTicks (((fs .ego).getD emptyTraj).by_ts.map Prod.fst)
        (((fs .infra).getD emptyTraj).by_ts.map Prod.fst)
        (((fs .vehicle).getD emptyTraj).by_ts.map Prod.fst)
        (((fs .traffic_light).getD emptyTraj).by_ts.map Prod.fst)) ∧
    (∀ k : Int,
      (k ∈ v2xUnionTicks (((fs .ego).getD emptyTraj).by_ts.map Prod.fst)
        (((fs .infra).getD emptyTraj).by_ts.map Prod.fst)
        (((fs .vehicle).getD emptyTraj).by_ts.map Prod.fst)
        (((fs .traffic_light).getD emptyTraj).by_ts.map Prod.fst)) ↔
      (k ∈ ((fs .ego).getD emptyTraj).by_ts.map Prod.fst ∨
       k ∈ ((fs .infra).getD emptyTraj).by_ts.map Prod.fst ∨
       k ∈ ((fs .vehicle).getD emptyTraj).by_ts.map Prod.fst ∨
       k ∈ ((fs .traffic_light).getD emptyTraj).by_ts.map Prod.fst)) ∧
    (v2xTrajLoadSceneBundle fs scene_id include_map map_try).frames =
      (v2xUnionTicks (((fs .ego).getD emptyTraj).by_ts.map Prod.fst)
        (((fs .infra).getD emptyTraj).by_ts.map Prod.fst)
        (((fs .vehicle).getD emptyTraj).by_ts.map Prod.fst)
        (((fs .traffic_light).getD emptyTraj).by_ts.map Prod.fst)).map
        (fun k => SceneFrame.mk (tsGet ((fs .ego).getD emptyTraj).by_ts k)
          (tsGet ((fs .infra).getD emptyTraj).by_ts k)
          (tsGet ((fs .vehicle).getD emptyTraj).by_ts k)
          (tsGet ((fs .traffic_light).getD emptyTraj).by_ts k)) ∧
    (v2xTrajLoadSceneBundle fs scene_id include_map map_try).timestamps =
      (v2xUnionTicks (((fs .ego).getD emptyTraj).by_ts.map Prod.fst)
        (((fs .infra).getD emptyTraj).by_ts.map Prod.fst)
        (((fs .vehicle).getD emptyTraj).by_ts.map Prod.fst)
        (((fs .traffic_light).getD emptyTraj).by_ts.map Prod.fst)).map ts_100ms_to_float ∧
    (∀ (m : List (Int × List α)) (k : Int), k ∉ m.map Prod.fst → tsGet m k = []) :=
  ⟨v2xUnionTicks_pairwise_lt _ _ _ _,
   fun k => v2xUnionTicks_mem _ _ _ _ k,
   rfl,
   rfl,
   fun _ _ h => tsGet_eq_nil_of_not_mem h⟩

end V2X

namespace V2X

/-- C4 counterexample: `V2XTrajAdapter.load_scene_bundle` never raises for
an unknown scene id — with no modality file present (the situation for a
scene id absent from the adapter's index) it still returns a bundle, with
missing-file warnings, instead of signalling NotFound. -/
theorem v2x_load_unknown_scene_returns_bundle :
    (V2XTraj_load_scene_bundle (α := Unit) (μ := Unit) (fun _ => none) "999" true
      (Except.error "m")).isOk = true ∧
    (v2xTrajLoadSceneBundle (α := Unit) (μ := Unit) (fun _ => none) "999" true
      (Except.error "m")).warnings =
      ["ego_missing_file", "infra_missing_file", "vehicle_missing_file",
       "extent_missing: could not compute extent from scene files",
       "no_timestamps: scene appears empty across all modalities",
       "traffic_light_missing_file"] := by
  constructor
  · rfl
  · decide

/-- C4 (amended): the CPM-objects and inD adapters raise a not-found
`KeyError` for a scene id absent from their scene index; the V2X-Traj
family's `load_scene_bundle` never raises — it always returns a bundle
(missing files only produce warnings) — and a fault inside its map-loading
`try` block is converted into a `map_load_failed` warning on the returned
bundle rather than being propagated. -/
theorem load_scene_bundle_guards :
    (∀ (σ β : Type) (scenes : List (String × σ)) (body : σ → β) (scene_id : String),
      dictFind scenes scene_id = none →
      CpmObjects_load_scene_bundle scenes body scene_id =
        Except.error ("scene not found: " ++ scene_id)) ∧
    (∀ (σ ρ β : Type) (scenes : List (String × σ)) (recordings : List (String × ρ))
      (recOf : σ → String) (body : σ → ρ → β) (scene_id : String),
      dictFind scenes scene_id = none →
      InD_load_scene_bundle scenes recordings recOf body scene_id =
        Except.error ("scene not found: " ++ scene_id)) ∧
    (∀ (α μ : Type) (fs : Modality → Option (TrajCsv α)) (scene_id : String)
      (include_map : Bool) (map_try : Except String (μ × List String)),
      V2XTraj_load_scene_bundle fs scene_id include_map map_try =
        Except.ok (v2xTrajLoadSceneBundle fs scene_id include_map map_try)) ∧
    (∀ (α μ : Type) (fs : Modality → Option (TrajCsv α)) (scene_id : String) (e : String),
      (parse_intersect_to_map_id ((v2xResolvedIntersect fs).getD "")).isSome = true →
      ("map_load_failed: " ++ e) ∈
        (v2xTrajLoadSceneBundle (μ := μ) fs scene_id true (Except.error e)).warnings) := by
  refine ⟨?_, ?_, ?_, ?_⟩
  · intro σ β scenes body scene_id h
    simp [CpmObjects_load_scene_bundle, h]
  · intro σ ρ β scenes recordings recOf body scene_id h
    simp [InD_load_scene_bundle, h]
  · intro α μ fs scene_id include_map map_try
    rfl
  · intro α μ fs scene_id e h
    simp [v2xTrajLoadSceneBundle, h]

/-- Witness for the load-scene-bundle guard theorem at concrete inputs. -/
theorem load_scene_bundle_guards_witness :
    CpmObjects_load_scene_bundle ([] : List (String × Unit)) (fun _ => ()) "404" =
      Except.error ("scene not found: " ++ "404") ∧
    InD_load_scene_bundle ([] : List (String × Unit)) ([] : List (String × Unit))
      (fun _ => "") (fun _ _ => ()) "404" =
      Except.error ("scene not found: " ++ "404") ∧
    ("map_load_failed: " ++ "boom") ∈
      (v2xTrajLoadSceneBundle (α := Unit) (μ := Unit)
        (fun _ => some ⟨[], bbox_init, none, some "x#1"⟩) "1" true
        (Except.error "boom")).warnings :=
  ⟨load_scene_bundle_guards.1 Unit Unit [] (fun _ => ()) "404" rfl,
   load_scene_bundle_guards.2.1 Unit Unit Unit [] [] (fun _ => "") (fun _ _ => ()) "404" rfl,
   load_scene_bundle_guards.2.2.2 Unit Unit
     (fun _ => some (⟨[], bbox_init, none, some "x#1"⟩ : TrajCsv Unit)) "1" "boom" (by decide)⟩

end V2X

namespace V2X

theorem getLast?_cons_getD (f : Int) (mid : List Int) :
    (f :: mid).getLast? = some (mid.getLast?.getD f) := by
  cases mid with
  | nil => rfl
  | cons y l =>
      rw [List.getLast?_cons_cons]
      rcases h : (y :: l).getLast? with _ | z
      · rw [List.getLast?_eq_none_iff] at h
        simp at h
      · rfl

theorem getLastD_cons (p x : Int) (mid : List Int) :
    (x :: mid).getLast?.getD p = mid.getLast?.getD x := by
  cases mid with
  | nil => rfl
  | cons y l =>
      rw [List.getLast?_cons_cons]
      rcases h : (y :: l).getLast? with _ | z
      · rw [List.getLast?_eq_none_iff] at h
        simp at h
      · rfl

theorem windowTailOk_snoc (g w f : Int) :
    ∀ (mid : List Int) (p t : Int), windowTailOk g w f p mid →
      ¬(t - mid.getLast?.getD p > g ∨ w ≤ t - f) →
      windowTailOk g w f p (mid ++ [t]) := by
  intro mid
  induction mid with
  | nil =>
      intro p t _ htrig
      exact ⟨htrig, trivial⟩
  | cons x mid ih =>
      intro p t h htrig
      obtain ⟨h1, h2⟩ := h
      rw [getLastD_cons p x mid] at htrig
      exact ⟨h1, ih x t h2 htrig⟩

theorem cpmWindowsAux_join (g w : Int) :
    ∀ (rest : List Int) (f p : Int) (cur : List Int),
      (cpmWindowsAux g w f p cur rest).join = cur ++ rest := by
  intro rest
  induction rest with
  | nil =>
      intro f p cur
      simp [cpmWindowsAux]
  | cons t rest ih =>
      intro f p cur
      simp only [cpmWindowsAux]
      by_cases hc : t - p > g ∨ w ≤ t - f
      · rw [if_pos hc]
        simp [ih]
      · rw [if_neg hc]
        rw [ih]
        simp

theorem cpmWindowsAux_good (g w : Int) :
    ∀ (rest : List Int) (f : Int) (mid : List Int),
      windowTailOk g w f f mid →
      ∀ win ∈ cpmWindowsAux g w f (mid.getLast?.getD f) (f :: mid) rest,
        windowOk g w win := by
  intro rest
  induction rest with
  | nil =>
      intro f mid hmid win hwin
      simp only [cpmWindowsAux, List.mem_singleton] at hwin
      rw [hwin]
      exact hmid
  | cons t rest ih =>
      intro f mid hmid win hwin
      simp only [cpmWindowsAux] at hwin
      by_cases hc : t - mid.getLast?.getD f > g ∨ w ≤ t - f
      · rw [if_pos hc] at hwin
        rcases List.mem_cons.mp hwin with rfl | hwin2
        · exact hmid
        · exact ih t [] trivial win hwin2
      · rw [if_neg hc] at hwin
        have hsnoc := windowTailOk_snoc g w f mid f t hmid hc
        have hprev : (mid ++ [t]).getLast?.getD f = t := by
          rw [List.getLast?_concat]
          rfl
        have hcons : (f :: mid) ++ [t] = f :: (mid ++ [t]) := rfl
        rw [hcons] at hwin
        apply ih f (mid ++ [t]) hsnoc win
        rw [hprev]
        exact hwin

theorem cpmWindowsAux_head (g w : Int) :
    ∀ (rest : List Int) (f p c : Int) (cs : List Int),
      ∃ w₂ ws, cpmWindowsAux g w f p (c :: cs) rest = w₂ :: ws ∧ w₂.head? = some c := by
  intro rest
  induction rest with
  | nil =>
      intro f p c cs
      exact ⟨c :: cs, [], rfl, rfl⟩
  | cons t rest ih =>
      intro f p c cs
      simp only [cpmWindowsAux]
      by_cases hc : t - p > g ∨ w ≤ t - f
      · rw [if_pos hc]
        exact ⟨c :: cs, _, rfl, rfl⟩
      · rw [if_neg hc]
        have hcons : (c :: cs) ++ [t] = c :: (cs ++ [t]) := rfl
        rw [hcons]
        exact ih f t c (cs ++ [t])

theorem cpmWindowsAux_boundaries (g w : Int) :
    ∀ (rest : List Int) (f : Int) (mid : List Int),
      boundariesOk g w (cpmWindowsAux g w f (mid.getLast?.getD f) (f :: mid) rest) := by
  intro rest
  induction rest with
  | nil =>
      intro f mid
      simp [cpmWindowsAux, boundariesOk]
  | cons t rest ih =>
      intro f mid
      simp only [cpmWindowsAux]
      by_cases hc : t - mid.getLast?.getD f > g ∨ w ≤ t - f
      · rw [if_pos hc]
        obtain ⟨w₂, ws, heq, hw2⟩ := cpmWindowsAux_head g w rest t t t []
        rw [heq]
        refine ⟨?_, ?_⟩
        · intro f₁ l₁ tt hf₁ hl₁ htt
          have hf : f₁ = f := by
            simp at hf₁
            exact hf₁.symm
          have hl : l₁ = mid.getLast?.getD f := by
            rw [getLast?_cons_getD f mid] at hl₁
            injection hl₁ with h
            exact h.symm
          have ht2 : tt = t := by
            rw [hw2] at htt
            injection htt with h
            exact h.symm
          rw [hf, hl, ht2]
          exact hc
        · rw [← heq]
          exact ih t []
      · rw [if_neg hc]
        have hprev : (mid ++ [t]).getLast?.getD f = t := by
          rw [List.getLast?_concat]
          rfl
        have h2 := ih f (mid ++ [t])
        rw [hprev] at h2
        exact h2

/-- C1: the single forward pass of `CpmObjectsAdapter._index_one_csv` over
the sorted bucketed timestamps of one sensor starts a new window at a
timestamp exactly when the gap from the previous timestamp exceeds
`gap_s * 1000` ms or the duration from the current window's first timestamp
reaches `window_s * 1000` ms: the produced windows concatenate back to the
input, the trigger is false inside every window and true at every window
boundary; for the bucketed timestamps `[0, 100, 200, 50000, 50100]` with
`gap_s = 1`, `window_s = 300` the result is exactly the two windows
`{0, 100, 200}` and `{50000, 50100}`. -/
theorem cpm_gap_aware_windowing :
    (∀ (gap_s window_s : Int) (ts : List Int), List.Pairwise (· < ·) ts →
      ((cpmWindows (cpm_gap_ms gap_s) (cpm_window_ms window_s) ts).join = ts ∧
       (∀ win ∈ cpmWindows (cpm_gap_ms gap_s) (cpm_window_ms window_s) ts,
         windowOk (cpm_gap_ms gap_s) (cpm_window_ms window_s) win) ∧
       boundariesOk (cpm_gap_ms gap_s) (cpm_window_ms window_s)
         (cpmWindows (cpm_gap_ms gap_s) (cpm_window_ms window_s) ts))) ∧
    cpm_gap_ms 1 = 1000 ∧ cpm_window_ms 300 = 300000 ∧
    cpmWindows (cpm_gap_ms 1) (cpm_window_ms 300) [0, 100, 200, 50000, 50100] =
      [[0, 100, 200], [50000, 50100]] := by
  refine ⟨?_, by decide, by decide, by decide⟩
  intro gap_s window_s ts _
  cases ts with
  | nil =>
      exact ⟨rfl, by simp [cpmWindows], by simp [cpmWindows, boundariesOk]⟩
  | cons t rest =>
      refine ⟨?_, ?_, ?_⟩
      · have h := cpmWindowsAux_join (cpm_gap_ms gap_s) (cpm_window_ms window_s) rest t t [t]
        simpa [cpmWindows] using h
      · intro win hwin
        exact cpmWindowsAux_good (cpm_gap_ms gap_s) (cpm_window_ms window_s) rest t []
          trivial win hwin
      · exact cpmWindowsAux_boundaries (cpm_gap_ms gap_s) (cpm_window_ms window_s) rest t []

/-- Witness for the gap-aware windowing theorem at a concrete sorted input. -/
theorem cpm_gap_aware_windowing_witness :
    List.Pairwise (fun a b : Int => a < b) [0, 100, 200] ∧
    ((cpmWindows (cpm_gap_ms 2) (cpm_window_ms 10) [0, 100, 200]).join = [0, 100, 200] ∧
     (∀ win ∈ cpmWindows (cpm_gap_ms 2) (cpm_window_ms 10) [0, 100, 200],
       windowOk (cpm_gap_ms 2) (cpm_window_ms 10) win) ∧
     boundariesOk (cpm_gap_ms 2) (cpm_window_ms 10)
       (cpmWindows (cpm_gap_ms 2) (cpm_window_ms 10) [0, 100, 200])) :=
  ⟨by decide, cpm_gap_aware_windowing.1 2 10 [0, 100, 200] (by decide)⟩

end V2X

namespace V2X

/-- Witness for the bundle-frames invariant at a concrete empty dictionary
and tick. -/
theorem v2x_bundle_frames_invariant_witness :
    tsGet ([] : List (Int × List Unit)) 5 = [] :=
  (v2x_bundle_frames_invariant (α := Unit) (μ := Unit) (fun _ => none) "w" false
    (Except.error "e")).2.2.2.2 [] 5 (by decide)

end V2X
